import Mathlib

/-!
Verification development for the minpower grid-topology and
constraint-assembly core (src/minpower/schedule.py, powersystems.py,
get_data.py).  Python objects are shallowly embedded: numeric values are
rationals, time steps are their string identifiers, optimization
expressions are evaluated under a valuation of the decision variables,
and code paths that raise are embedded as Option/Except values.
-/

namespace Minpower

/-! ## schedule.py: TimeIndex

Only the fields that the subdivision logic reads are embedded.
The `strings` list is the ordered list of step identifiers
(t00, t01, ...); it is in 1-1 order-preserving correspondence with the
underlying timestamp index, so slicing `times` and slicing `strings`
agree position-wise.  `subdivided` embeds the `_subdivided` attribute
(set to False by `TimeIndex.__init__` and never set by `subdivide`);
`int_overlap` embeds `_int_overlap`.  `intervalhrs` is the step length
in whole hours. -/
structure TimeIndex where
  strings : List String
  intervalhrs : Nat
  subdivided : Bool
  int_overlap : Nat
deriving DecidableEq, Repr

/-- Embedding of TimeIndex.non_overlap (schedule.py lines 75-80).
The stripping branch is taken when `_subdivided` is set and
`_int_overlap > 0`; on that path the source reads the unbound name
`int_overlap` and so raises NameError, embedded here as `none`.  The
branch is in fact dead for windows produced by `subdivide`, which never
sets `_subdivided`. -/
def TimeIndex.non_overlap (ti : TimeIndex) : Option TimeIndex :=
  if ti.subdivided ∧ 0 < ti.int_overlap then
    none
  else some ti

/-- Embedding of TimeIndex.subdivide (schedule.py lines 82-97).
Each sub-window is built from the slice `[start:end_point]` of the
parent index; `subdivide` then overwrites the freshly generated
identifiers with the parent slice `self.strings[start:end_point]`, so
the sub-window carries the parent identifiers.  The constructor leaves
`_subdivided = False` (line 39) and `subdivide` does not change it;
only `_int_overlap` is set on the sub-window (line 94). -/
def TimeIndex.subdivide (ti : TimeIndex) (division_hrs overlap_hrs : Nat) :
    List TimeIndex :=
  let int_division := division_hrs / ti.intervalhrs
  let int_overlap := overlap_hrs / ti.intervalhrs
  (List.range (ti.strings.length / int_division)).map (fun stg =>
    let start := stg * int_division
    let end_point := min (start + int_division + int_overlap) ti.strings.length
    { strings := (ti.strings.drop start).take (end_point - start)
      intervalhrs := ti.intervalhrs
      subdivided := false
      int_overlap := int_overlap })

/-- Concatenation, in order, of the identifier sequences of the
`non_overlap()` portions of the sub-windows returned by `subdivide`;
`none` if any `non_overlap()` call raises. -/
def concat_non_overlap (ti : TimeIndex) (division_hrs overlap_hrs : Nat) :
    Option (List String) :=
  ((ti.subdivide division_hrs overlap_hrs).mapM TimeIndex.non_overlap).map
    (fun subs => (subs.map TimeIndex.strings).flatten)

/-- mapM over Option is the identity when the function succeeds with its
argument on every element. -/
theorem mapM_option_id {α : Type} (f : α → Option α) :
    ∀ l : List α, (∀ x ∈ l, f x = some x) → l.mapM f = some l
  | [], _ => rfl
  | a :: l, h => by
    rw [List.mapM_cons, h a (List.mem_cons_self a l),
      mapM_option_id f l (fun x hx => h x (List.mem_cons_of_mem a hx))]
    rfl

/-- Concatenating the consecutive k-chunks of a list of length n*k
recovers the list. -/
theorem range_chunks_flatten {k : Nat} (hk : 0 < k) :
    ∀ (n : Nat) (l : List String), l.length = n * k →
      ((List.range n).map (fun stg => (l.drop (stg * k)).take k)).flatten = l
  | 0, l, h => by
    have hl : l = [] := List.eq_nil_of_length_eq_zero (by simpa using h)
    simp [hl]
  | n+1, l, h => by
    rw [List.range_succ_eq_map, List.map_cons, List.map_map, List.flatten_cons]
    have hmap : (List.range n).map ((fun stg => (l.drop (stg * k)).take k) ∘
          (fun i => i + 1))
        = (List.range n).map (fun stg => ((l.drop k).drop (stg * k)).take k) := by
      refine List.map_congr_left (fun stg _ => ?_)
      simp only [Function.comp_apply, List.drop_drop]
      have harith : (stg + 1) * k = k + stg * k := by ring
      rw [harith]
    have hlen : (l.drop k).length = n * k := by
      rw [List.length_drop, h]
      have : (n + 1) * k = n * k + k := by ring
      omega
    rw [hmap, range_chunks_flatten hk n (l.drop k) hlen]
    simp

/-- Claim C1, counterexample: for the four-step hourly TimeIndex and
subdivide(division_hrs = 2, overlap_hrs = 1), concatenating the
non_overlap() portions of the sub-windows yields
[t00, t01, t02, t02, t03] — the overlap step t02 is duplicated — because
subdivide never sets the subdivided flag on its sub-windows, so
non_overlap() returns each sub-window whole. -/
theorem subdivide_non_overlap_counterexample :
    concat_non_overlap ⟨["t00", "t01", "t02", "t03"], 1, false, 0⟩ 2 1 ≠
      some ["t00", "t01", "t02", "t03"] := by decide

/-- Claim C1 (amended): when the requested overlap is zero and the
division width (in steps) is positive and divides the horizon length
exactly, concatenating the non_overlap() portions of the sub-windows
returned by subdivide reproduces the original ordered sequence of
string identifiers exactly.  (With a positive overlap the sub-windows
are returned whole by non_overlap() — the subdivided flag is never set
by subdivide — so overlap steps are duplicated; and steps beyond the
last full division are dropped when the division does not divide the
horizon.) -/
theorem subdivide_non_overlap_roundtrip (ti : TimeIndex) (division_hrs : Nat)
    (hpos : 0 < division_hrs / ti.intervalhrs)
    (hdvd : division_hrs / ti.intervalhrs ∣ ti.strings.length) :
    concat_non_overlap ti division_hrs 0 = some ti.strings := by
  obtain ⟨n, hn⟩ := hdvd
  set k := division_hrs / ti.intervalhrs with hkdef
  have hsubs : ti.subdivide division_hrs 0
      = (List.range n).map (fun stg =>
          ⟨(ti.strings.drop (stg * k)).take k, ti.intervalhrs, false, 0⟩) := by
    unfold TimeIndex.subdivide
    dsimp only
    rw [← hkdef, Nat.zero_div, hn, Nat.mul_div_cancel_left _ hpos]
    refine List.map_congr_left (fun stg hstg => ?_)
    have hstg' : stg + 1 ≤ n := List.mem_range.mp hstg
    have e1 : stg * k + k = (stg + 1) * k := by ring
    have e2 : (stg + 1) * k ≤ n * k := Nat.mul_le_mul_right k hstg'
    have e3 : n * k = k * n := Nat.mul_comm n k
    have hmin : min (stg * k + k + 0) (k * n) - stg * k = k := by omega
    rw [hmin]
  have hall : ∀ s ∈ ti.subdivide division_hrs 0,
      TimeIndex.non_overlap s = some s := by
    intro s hs
    rw [hsubs] at hs
    obtain ⟨stg, _, rfl⟩ := List.mem_map.mp hs
    rfl
  unfold concat_non_overlap
  rw [mapM_option_id _ _ hall, Option.map_some', hsubs, List.map_map]
  have hchunks : ((List.range n).map (fun stg =>
        (ti.strings.drop (stg * k)).take k)).flatten = ti.strings :=
    range_chunks_flatten hpos n ti.strings (by rw [hn, Nat.mul_comm])
  simpa using hchunks

/-- Claim C1 (amended), witness at the four-step hourly index with a
two-hour division and no overlap. -/
theorem subdivide_non_overlap_roundtrip_witness :
    0 < 2 / 1 ∧ (2 / 1 ∣ 4) ∧
      concat_non_overlap ⟨["t00", "t01", "t02", "t03"], 1, false, 0⟩ 2 0
        = some ["t00", "t01", "t02", "t03"] :=
  ⟨by decide, ⟨2, rfl⟩,
    subdivide_non_overlap_roundtrip ⟨["t00", "t01", "t02", "t03"], 1, false, 0⟩
      2 (by decide) ⟨2, rfl⟩⟩

/-! ## powersystems.py: topology builder (PowerSystem.make_buses_list)

Generators and Loads are embedded with the fields this core reads.  A
bus name is `Option String` because components built without a bus
reference carry `bus = None` (the single-bus ED/UC case). -/

structure Generator where
  bus : Option String
deriving DecidableEq, Repr

structure Load where
  bus : Option String
  shedding_allowed : Bool
  cost_shedding : ℚ
deriving DecidableEq, Repr

structure Bus where
  name : Option String
  index : Nat
  isSwing : Bool
  generators : List Generator
  loads : List Load
deriving DecidableEq, Repr

/-- Modelled from the spec: `commonscripts.unique` (not under src/) is
used by make_buses_list to collect the distinct referenced bus names;
per the spec it preserves first-seen order. -/
def uniqueAux {α : Type} [DecidableEq α] (seen : List α) : List α → List α
  | [] => []
  | a :: l => if a ∈ seen then uniqueAux seen l else a :: uniqueAux (a :: seen) l

/-- Modelled from the spec: first-seen-order deduplication. -/
def unique {α : Type} [DecidableEq α] (l : List α) : List α := uniqueAux [] l

/-- Loop body of make_buses_list (powersystems.py lines 240-247).  For
each bus name, a Bus is created with the matching generators and loads
attached; the statement `if not swingHasBeenSet:
newBus.isSwing=swingHasBeenSet=True` executes once per generator (it
sits inside the `for gen in generators` loop), so a bus becomes swing
exactly when the flag is still unset and the generator list is
nonempty. -/
def make_buses_aux (generators : List Generator) (loads : List Load) :
    List (Option String) → Nat → Bool → List Bus
  | [], _, _ => []
  | busNm :: rest, b, swingHasBeenSet =>
    { name := busNm
      index := b
      isSwing := !swingHasBeenSet && !generators.isEmpty
      generators := generators.filter (fun gen => gen.bus == busNm)
      loads := loads.filter (fun ld => ld.bus == busNm) } ::
    make_buses_aux generators loads rest (b + 1)
      (swingHasBeenSet || !generators.isEmpty)

/-- Embedding of PowerSystem.make_buses_list (powersystems.py lines
223-248): the referenced bus names are collected from the generators
then the loads, deduplicated preserving first-seen order, and one Bus
per name is built in order with sequential indices. -/
def make_buses_list (loads : List Load) (generators : List Generator) :
    List Bus :=
  make_buses_aux generators loads
    (unique ((generators.map Generator.bus) ++ (loads.map Load.bus))) 0 false

/-- Embedding of PowerSystem.set_load_shedding (powersystems.py lines
214-221): every load attached to a bus of the system has its
shedding_allowed and cost_shedding fields overwritten. -/
def set_load_shedding (buses : List Bus) (is_allowed : Bool)
    (cost_load_shedding : ℚ) : List Bus :=
  buses.map (fun bus =>
    { bus with loads := bus.loads.map (fun ld =>
        { ld with shedding_allowed := is_allowed
                  cost_shedding := cost_load_shedding }) })

/-- The global configuration fields that PowerSystem.__init__ copies
from user_config (powersystems.py lines 186-187). -/
structure UserConfig where
  load_shedding_allowed : Bool
  cost_load_shedding : ℚ
deriving DecidableEq, Repr

/-- Embedding of the bus-building part of PowerSystem.__init__
(powersystems.py lines 183-212): buses are built by make_buses_list and
then set_load_shedding(self.load_shedding_allowed) overwrites the
shedding mode of every attached load, with cost taken from
self.cost_load_shedding; both were copied from user_config. -/
def powerSystem_buses (cfg : UserConfig) (generators : List Generator)
    (loads : List Load) : List Bus :=
  set_load_shedding (make_buses_list loads generators)
    cfg.load_shedding_allowed cfg.cost_load_shedding

theorem uniqueAux_nil_of_subset {α : Type} [DecidableEq α] (seen : List α) :
    ∀ l : List α, (∀ x ∈ l, x ∈ seen) → uniqueAux seen l = []
  | [], _ => rfl
  | a :: l, h => by
    rw [uniqueAux, if_pos (h a (List.mem_cons_self a l))]
    exact uniqueAux_nil_of_subset seen l
      (fun x hx => h x (List.mem_cons_of_mem a hx))

/-- Once the swing flag has been claimed, no later bus receives it. -/
theorem make_buses_aux_noswing (generators : List Generator)
    (loads : List Load) :
    ∀ (names : List (Option String)) (b : Nat),
      (make_buses_aux generators loads names b true).filter
        (fun bus => bus.isSwing) = []
  | [], _ => rfl
  | nm :: rest, b => by
    have ih := make_buses_aux_noswing generators loads rest (b + 1)
    simp [make_buses_aux, ih]

/-- Claim C2, counterexample: with an empty generator list and one load
on bus A, make_buses_list returns one bus whose swing flag is unset (the
swing assignment sits inside the loop over generators), so no bus at all
is the swing bus. -/
theorem make_buses_list_counterexample :
    ¬ (((make_buses_list [⟨some "A", false, 0⟩] []).filter
        (fun b => b.isSwing)).length = 1) := by decide

/-- Claim C2 (amended): provided the generator list is nonempty, the bus
list built by make_buses_list contains exactly one bus with the swing
flag set, namely the very first bus constructed; and in the degenerate
case where no bus names are referenced (every generator and load has
bus = None), the single resulting bus holds every generator and load and
is the swing bus.  (With no generators the swing flag is never set,
because the assignment sits inside the loop over generators.) -/
theorem make_buses_list_swing (generators : List Generator)
    (loads : List Load) (hg : generators ≠ []) :
    ((make_buses_list loads generators).filter
        (fun b => b.isSwing)).length = 1 ∧
    ((make_buses_list loads generators).head?.map Bus.isSwing
        = some true) ∧
    ((∀ g ∈ generators, g.bus = none) → (∀ l ∈ loads, l.bus = none) →
      make_buses_list loads generators
        = [⟨none, 0, true, generators, loads⟩]) := by
  obtain ⟨g0, gs, rfl⟩ := List.exists_cons_of_ne_nil hg
  have hnames : unique (((g0 :: gs).map Generator.bus) ++ loads.map Load.bus)
      = g0.bus ::
        uniqueAux [g0.bus] (gs.map Generator.bus ++ loads.map Load.bus) := by
    simp [unique, uniqueAux]
  have hlist : make_buses_list loads (g0 :: gs)
      = { name := g0.bus, index := 0, isSwing := true,
          generators := (g0 :: gs).filter (fun gen => gen.bus == g0.bus),
          loads := loads.filter (fun ld => ld.bus == g0.bus) } ::
        make_buses_aux (g0 :: gs) loads
          (uniqueAux [g0.bus] (gs.map Generator.bus ++ loads.map Load.bus))
          1 true := by
    rw [make_buses_list, hnames]
    simp [make_buses_aux]
  refine ⟨?_, ?_, ?_⟩
  · rw [hlist]
    rw [List.filter_cons_of_pos (by simp)]
    simp [make_buses_aux_noswing]
  · rw [hlist]
    rfl
  · intro hgall hlall
    have hg0 : g0.bus = none := hgall g0 (List.mem_cons_self g0 gs)
    have hrest : uniqueAux [g0.bus]
        (gs.map Generator.bus ++ loads.map Load.bus) = [] := by
      refine uniqueAux_nil_of_subset _ _ (fun x hx => ?_)
      rcases List.mem_append.mp hx with hx | hx
      · obtain ⟨g, hgmem, rfl⟩ := List.mem_map.mp hx
        simp [hgall g (List.mem_cons_of_mem g0 hgmem), hg0]
      · obtain ⟨l, hlmem, rfl⟩ := List.mem_map.mp hx
        simp [hlall l hlmem, hg0]
    rw [hlist, hrest]
    have hfg : (g0 :: gs).filter (fun gen => gen.bus == g0.bus) = g0 :: gs :=
      List.filter_eq_self.mpr (fun g hgmem => by simp [hgall g hgmem, hg0])
    have hfl : loads.filter (fun ld => ld.bus == g0.bus) = loads :=
      List.filter_eq_self.mpr (fun l hlmem => by simp [hlall l hlmem, hg0])
    rw [hfg, hfl, hg0]
    rfl

/-- Claim C2 (amended), witness: one generator and one load, neither
referencing a bus name, yield a single all-holding swing bus. -/
theorem make_buses_list_swing_witness :
    ((make_buses_list [⟨none, true, 5⟩] [⟨none⟩]).filter
        (fun b => b.isSwing)).length = 1 ∧
    make_buses_list [⟨none, true, 5⟩] [⟨none⟩]
      = [⟨none, 0, true, [⟨none⟩], [⟨none, true, 5⟩]⟩] := by
  have h := make_buses_list_swing [⟨none⟩] [⟨none, true, 5⟩] (by decide)
  exact ⟨h.1, h.2.2 (by decide) (by decide)⟩

/-- Claim C10: after PowerSystem construction, every load attached to a
bus of the system has shedding_allowed equal to the system-wide
load_shedding_allowed configuration value and cost_shedding equal to
the system-wide cost_load_shedding value; whatever per-load values the
Load constructor received are overwritten. -/
theorem load_shedding_propagated (cfg : UserConfig)
    (generators : List Generator) (loads : List Load) (bus : Bus)
    (hb : bus ∈ powerSystem_buses cfg generators loads)
    (ld : Load) (hl : ld ∈ bus.loads) :
    ld.shedding_allowed = cfg.load_shedding_allowed ∧
    ld.cost_shedding = cfg.cost_load_shedding := by
  unfold powerSystem_buses set_load_shedding at hb
  obtain ⟨bus0, _, rfl⟩ := List.mem_map.mp hb
  simp only at hl
  obtain ⟨ld0, _, rfl⟩ := List.mem_map.mp hl
  exact ⟨rfl, rfl⟩

/-- Claim C10, witness: a load constructed with shedding_allowed = false
and cost 3 ends up carrying the global setting (true, 7). -/
theorem load_shedding_propagated_witness :
    (⟨some "A", true, 7⟩ : Load).shedding_allowed
        = (⟨true, 7⟩ : UserConfig).load_shedding_allowed ∧
    (⟨some "A", true, 7⟩ : Load).cost_shedding
        = (⟨true, 7⟩ : UserConfig).cost_load_shedding :=
  load_shedding_propagated ⟨true, 7⟩ [⟨some "A"⟩] [⟨some "A", false, 3⟩]
    ⟨some "A", 0, true, [⟨some "A"⟩], [⟨some "A", true, 7⟩]⟩ (by decide)
    ⟨some "A", true, 7⟩ (by decide)

/-! ## powersystems.py: admittance matrix builder

PowerSystem.create_admittance_matrix (lines 249-267) starts from a zero
nB x nB matrix, and for each line adds -1/X into B[from][to] and
B[to][from]; addition into an initially-zero cell commutes, so the final
content of a cell is the sum of the contributions of all lines, which is
what `Bpre` computes.  The final loop then overwrites each diagonal
entry with -1 times the sum of the whole current row i (the old diagonal
entry included).  Reactances are embedded as rationals. -/

structure LineR where
  From : String
  To : String
  X : ℚ
deriving DecidableEq, Repr

/-- Content of cell (i, j) after the line-accumulation loop of
create_admittance_matrix (powersystems.py lines 261-265). -/
def Bpre (names : List String) (lines : List LineR) (i j : Nat) : ℚ :=
  (lines.map (fun l =>
    (if names.indexOf l.From = i ∧ names.indexOf l.To = j
        then -1 / l.X else 0)
      + (if names.indexOf l.To = i ∧ names.indexOf l.From = j
          then -1 / l.X else 0))).sum

/-- Embedding of the finished matrix of create_admittance_matrix
(powersystems.py lines 249-267): the diagonal pass (lines 266-267) sets
B[i][i] = -1 * sum(B[i][:]), summing the row as it stands after the
line accumulation. -/
def Bmatrix (names : List String) (lines : List LineR) (i j : Nat) : ℚ :=
  if i = j then
    -(((List.range names.length).map (fun k => Bpre names lines i k)).sum)
  else Bpre names lines i j

/-- The quantity named by the spec: the sum of -1/X over all lines
between buses i and j (in either orientation, accumulating parallel
lines). -/
def susceptance_sum (names : List String) (lines : List LineR)
    (i j : Nat) : ℚ :=
  ((lines.filter (fun l =>
      decide ((names.indexOf l.From = i ∧ names.indexOf l.To = j) ∨
        (names.indexOf l.From = j ∧ names.indexOf l.To = i)))).map
    (fun l => -1 / l.X)).sum

theorem list_range_map_sum (f : Nat → ℚ) (n : Nat) :
    ((List.range n).map f).sum = ∑ j ∈ Finset.range n, f j := by
  induction n with
  | zero => simp
  | succ m ih =>
    rw [List.range_succ, Finset.sum_range_succ, List.map_append,
      List.sum_append, ih]
    simp

theorem Bpre_symm (names : List String) (i j : Nat) :
    ∀ lines : List LineR, Bpre names lines i j = Bpre names lines j i
  | [] => rfl
  | l :: ls => by
    have ih := Bpre_symm names i j ls
    simp only [Bpre, List.map_cons, List.sum_cons] at ih ⊢
    rw [ih]
    congr 1
    rw [add_comm]
    congr 1 <;> exact if_congr and_comm rfl rfl

/-- Without self-loop lines whose endpoints are known bus names, the
accumulation loop leaves every diagonal cell at zero. -/
theorem Bpre_self (names : List String) (lines : List LineR) (i : Nat)
    (hmem : ∀ l ∈ lines, l.From ∈ names ∧ l.To ∈ names)
    (hne : ∀ l ∈ lines, l.From ≠ l.To) :
    Bpre names lines i i = 0 := by
  unfold Bpre
  refine List.sum_eq_zero (fun x hx => ?_)
  obtain ⟨l, hl, rfl⟩ := List.mem_map.mp hx
  have hidx : ¬ (names.indexOf l.From = i ∧ names.indexOf l.To = i) := by
    rintro ⟨hf, ht⟩
    exact hne l hl ((List.indexOf_inj (hmem l hl).1 (hmem l hl).2).mp
      (hf.trans ht.symm))
  have hidx2 : ¬ (names.indexOf l.To = i ∧ names.indexOf l.From = i) :=
    fun h => hidx ⟨h.2, h.1⟩
  rw [if_neg hidx, if_neg hidx2, add_zero]

theorem Bpre_eq_susceptance (names : List String) (i j : Nat) (hij : i ≠ j) :
    ∀ lines : List LineR,
      Bpre names lines i j = susceptance_sum names lines i j
  | [] => rfl
  | l :: ls => by
    have ih := Bpre_eq_susceptance names i j hij ls
    simp only [Bpre, susceptance_sum, List.map_cons, List.sum_cons,
      List.filter_cons] at ih ⊢
    by_cases h1 : names.indexOf l.From = i ∧ names.indexOf l.To = j
    · have h2 : ¬ (names.indexOf l.To = i ∧ names.indexOf l.From = j) :=
        fun h => hij (h1.1.symm.trans h.2)
      rw [if_pos h1, if_neg h2, add_zero]
      have hd : decide ((names.indexOf l.From = i ∧ names.indexOf l.To = j) ∨
          (names.indexOf l.From = j ∧ names.indexOf l.To = i)) = true := by
        simp [h1]
      simp [hd, ih]
    · by_cases h2 : names.indexOf l.To = i ∧ names.indexOf l.From = j
      · rw [if_neg h1, if_pos h2, zero_add]
        have hd : decide ((names.indexOf l.From = i ∧ names.indexOf l.To = j) ∨
            (names.indexOf l.From = j ∧ names.indexOf l.To = i)) = true := by
          simp [h2.1, h2.2]
        simp [hd, ih]
      · rw [if_neg h1, if_neg h2, add_zero]
        have hd : decide ((names.indexOf l.From = i ∧ names.indexOf l.To = j) ∨
            (names.indexOf l.From = j ∧ names.indexOf l.To = i)) = false := by
          simp only [decide_eq_false_iff_not]
          rintro (h | h)
          · exact h1 h
          · exact h2 ⟨h.2, h.1⟩
        simp [hd, ih]

/-- Claim C3 (amended): for every bus list and line list whose endpoint
names occur among the buses, have nonzero reactance, and join two
distinct buses (no self-loop), the matrix built by
create_admittance_matrix is symmetric, its off-diagonal entry B[i][j]
is the sum of -1/X over all lines between buses i and j, its diagonal
entry is the negated sum of the rest of row i, and every row sums to
zero.  (A self-loop line breaks the last two properties: the diagonal
pass folds the stale diagonal entry into the row sum.) -/
theorem create_admittance_matrix_spec (names : List String)
    (lines : List LineR)
    (hmem : ∀ l ∈ lines, l.From ∈ names ∧ l.To ∈ names)
    (hX : ∀ l ∈ lines, l.X ≠ 0)
    (hne : ∀ l ∈ lines, l.From ≠ l.To) :
    (∀ i j, Bmatrix names lines i j = Bmatrix names lines j i) ∧
    (∀ i j, i ≠ j →
      Bmatrix names lines i j = susceptance_sum names lines i j) ∧
    (∀ i, Bmatrix names lines i i
        = -(∑ j ∈ (Finset.range names.length).erase i,
            Bmatrix names lines i j)) ∧
    (∀ i, i < names.length →
        (∑ j ∈ Finset.range names.length, Bmatrix names lines i j) = 0) := by
  set n := names.length with hn
  have hself : ∀ i, Bpre names lines i i = 0 :=
    fun i => Bpre_self names lines i hmem hne
  have hdiag : ∀ i, Bmatrix names lines i i
      = -(∑ j ∈ Finset.range n, Bpre names lines i j) := by
    intro i
    unfold Bmatrix
    rw [if_pos rfl, list_range_map_sum]
  have hoff : ∀ i j, i ≠ j →
      Bmatrix names lines i j = Bpre names lines i j := by
    intro i j hij
    unfold Bmatrix
    rw [if_neg hij]
  have herase : ∀ i, (∑ j ∈ (Finset.range n).erase i, Bmatrix names lines i j)
      = ∑ j ∈ (Finset.range n).erase i, Bpre names lines i j := by
    intro i
    refine Finset.sum_congr rfl (fun j hj => ?_)
    exact hoff i j (Ne.symm (Finset.ne_of_mem_erase hj))
  have herase2 : ∀ i, (∑ j ∈ (Finset.range n).erase i, Bpre names lines i j)
      = ∑ j ∈ Finset.range n, Bpre names lines i j := by
    intro i
    by_cases hi : i ∈ Finset.range n
    · have hadd := Finset.add_sum_erase (Finset.range n)
        (fun j => Bpre names lines i j) hi
      simp only [] at hadd
      rw [hself i, zero_add] at hadd
      exact hadd
    · rw [Finset.erase_eq_of_not_mem hi]
  refine ⟨?_, ?_, ?_, ?_⟩
  · intro i j
    by_cases hij : i = j
    · subst hij; rfl
    · rw [hoff i j hij, hoff j i (Ne.symm hij), Bpre_symm]
  · intro i j hij
    rw [hoff i j hij, Bpre_eq_susceptance names i j hij]
  · intro i
    rw [hdiag i, herase i, herase2 i]
  · intro i hi
    have hmem_i : i ∈ Finset.range n := Finset.mem_range.mpr hi
    have hsplit := Finset.add_sum_erase (Finset.range n)
      (fun j => Bmatrix names lines i j) hmem_i
    simp only [] at hsplit
    rw [← hsplit, hdiag i, herase i, herase2 i]
    ring

/-- Claim C3, counterexample: with buses A, B and the single self-loop
line A-A of reactance 1 (endpoints among the buses, X nonzero), row 0 of
the built matrix sums to 2, not 0: the accumulation writes -2 into
B[0][0] and the diagonal pass then sets B[0][0] = -(-2 + 0) = 2. -/
theorem create_admittance_matrix_counterexample :
    ¬ ((∑ j ∈ Finset.range 2, Bmatrix ["A", "B"] [⟨"A", "A", 1⟩] 0 j) = 0) := by
  have h1 : List.indexOf "A" ["A", "B"] = 0 := rfl
  have hBpre00 : Bpre ["A", "B"] [⟨"A", "A", 1⟩] 0 0 = -2 := by
    simp [Bpre, h1]
    norm_num
  have hBpre01 : Bpre ["A", "B"] [⟨"A", "A", 1⟩] 0 1 = 0 := by
    simp [Bpre, h1]
  have hB00 : Bmatrix ["A", "B"] [⟨"A", "A", 1⟩] 0 0 = 2 := by
    simp [Bmatrix, List.range_succ, hBpre00, hBpre01]
  have hB01 : Bmatrix ["A", "B"] [⟨"A", "A", 1⟩] 0 1 = 0 := by
    simp [Bmatrix, hBpre01]
  intro h
  rw [Finset.sum_range_succ, Finset.sum_range_succ, Finset.sum_range_zero,
    zero_add, hB00, hB01] at h
  norm_num at h

/-- Claim C3 (amended), witness: buses A, B joined by one line of
reactance 2. -/
theorem create_admittance_matrix_spec_witness :
    (Bmatrix ["A", "B"] [⟨"A", "B", 2⟩] 0 1
      = Bmatrix ["A", "B"] [⟨"A", "B", 2⟩] 1 0) ∧
    (Bmatrix ["A", "B"] [⟨"A", "B", 2⟩] 0 1
      = susceptance_sum ["A", "B"] [⟨"A", "B", 2⟩] 0 1) ∧
    (∑ j ∈ Finset.range 2, Bmatrix ["A", "B"] [⟨"A", "B", 2⟩] 0 j) = 0 := by
  have h := create_admittance_matrix_spec ["A", "B"] [⟨"A", "B", 2⟩]
    (by decide) (by decide) (by decide)
  exact ⟨h.1 0 1, h.2.1 0 1 (by decide), h.2.2.2 0 (by decide)⟩

/-! ## powersystems.py: Bus, Line and PowerSystem constraints

Optimization expressions are evaluated under a valuation: each
generator is represented by its power(t) (resp. power_available(t))
function, each load by its power(t) function, and each bus and line by
the valuation of its angle (resp. flow) variable.  A registered
constraint is recorded as a named, time-indexed comparison of two
evaluated sides; `a >= b` in the source is recorded as `b ≤ a`. -/

inductive Rel
  | eq
  | le
deriving DecidableEq, Repr

structure Constraint where
  name : String
  time : String
  lhs : ℚ
  rel : Rel
  rhs : ℚ
deriving DecidableEq, Repr

structure BusF where
  name : String
  index : Nat
  isSwing : Bool
  generators : List (String → ℚ)
  loads : List (String → ℚ)
  angle : String → ℚ

/-- Embedding of Bus.Pgen (powersystems.py lines 119-121). -/
def BusF.Pgen (b : BusF) (t : String) : ℚ :=
  (b.generators.map (fun gen => gen t)).sum

/-- Embedding of Bus.Pload (powersystems.py lines 122-124). -/
def BusF.Pload (b : BusF) (t : String) : ℚ :=
  (b.loads.map (fun ld => ld t)).sum

/-- Embedding of Bus.power_balance (powersystems.py lines 125-128):
`sum([-lineFlowsFromBus, -self.Pload(t), self.Pgen(t)])`, where
lineFlowsFromBus is the literal 0 when the system has exactly one bus
and otherwise sums B[i][j]*angle_j over all buses j. -/
def BusF.power_balance (b : BusF) (t : String) (Bm : Nat → Nat → ℚ)
    (allBuses : List BusF) : ℚ :=
  ([-(if allBuses.length = 1 then 0
      else (allBuses.map
        (fun otherBus => Bm b.index otherBus.index * otherBus.angle t)).sum),
    -(b.Pload t), b.Pgen t] : List ℚ).sum

/-- Embedding of Line.__init__ (powersystems.py lines 79-82): if Pmin is
not given it is reset to -1*Pmax. -/
structure LineF where
  name : String
  From : String
  To : String
  X : ℚ
  Pmax : ℚ
  Pmin : ℚ
  power : String → ℚ

def LineF.make (nm F T : String) (X Pmax : ℚ) (Pmin : Option ℚ)
    (power : String → ℚ) : LineF :=
  { name := nm, From := F, To := T, X := X, Pmax := Pmax,
    Pmin := match Pmin with
      | none => -1 * Pmax
      | some p => p
    power := power }

/-- Positional bus lookup `buses[i].angle(t)`; out-of-range access (an
IndexError in the source, unreachable under the membership hypotheses
of the theorems below) is given the junk value 0. -/
def busAngle (buses : List BusF) (i : Nat) (t : String) : ℚ :=
  ((buses[i]?).map (fun b => b.angle t)).getD 0

/-- The spec-side lookup: the angle of the (first) bus carrying the
given name. -/
def angleOf (buses : List BusF) (busName : String) (t : String) : ℚ :=
  ((buses.find? (fun b => b.name == busName)).map
    (fun b => b.angle t)).getD 0

/-- Embedding of Line.create_constraints (powersystems.py lines 89-98):
for each time step the flow-definition equality and the two box limits
are registered, the endpoint buses being located by position of their
names in the bus list. -/
def LineF.create_constraints (l : LineF) (times : List String)
    (buses : List BusF) : List Constraint :=
  times.flatMap (fun t =>
    [⟨"line flow", t, l.power t, Rel.eq,
        (1 / l.X) * (busAngle buses ((buses.map BusF.name).indexOf l.From) t
          - busAngle buses ((buses.map BusF.name).indexOf l.To) t)⟩,
     ⟨"line limit high", t, l.power t, Rel.le, l.Pmax⟩,
     ⟨"line limit low", t, l.Pmin, Rel.le, l.power t⟩])

/-- Embedding of the bus-owned part of Bus.create_constraints
(powersystems.py lines 156-164): per time step the power-balance
equality, and, when the system has more than one bus and this bus is
the swing bus, the swing-angle equality.  The delegation to the
attached generator and load create_constraints calls (lines 157-158) is
out of scope here (those classes live outside src/); none of their
constraints carries the names used at the bus level. -/
def BusF.create_constraints (b : BusF) (times : List String)
    (Bm : Nat → Nat → ℚ) (buses : List BusF) : List Constraint :=
  times.flatMap (fun time =>
    ⟨"power balance", time, BusF.power_balance b time Bm buses, Rel.eq, 0⟩ ::
    (if 1 < buses.length ∧ b.isSwing = true then
      [⟨"swing bus", time, b.angle time, Rel.eq, 0⟩]
    else []))

theorem busAngle_indexOf (t nm : String) :
    ∀ buses : List BusF,
      busAngle buses ((buses.map BusF.name).indexOf nm) t = angleOf buses nm t
  | [] => rfl
  | b :: bs => by
    by_cases h : b.name = nm
    · rw [List.map_cons, List.indexOf_cons_eq _ (by simp [h])]
      unfold busAngle angleOf
      rw [List.find?_cons_of_pos _ (by simp [h]), List.getElem?_cons_zero]
    · rw [List.map_cons, List.indexOf_cons_ne _ (by simp [h])]
      unfold busAngle angleOf
      rw [List.find?_cons_of_neg _ (by simp [h]), List.getElem?_cons_succ]
      exact busAngle_indexOf t nm bs

/-- Claim C4: the power-balance expression equals
generation(t) - load(t) - net_line_flow_from_bus(t), where the cross-bus
flow term is the sum over all buses j of B[i][j]*angle_j(t) and is 0
when the bus list has exactly one bus; in the single-bus case the
power-balance constraint expression == 0 therefore reduces to
generation(t) - load(t) == 0. -/
theorem power_balance_spec (b : BusF) (t : String) (Bm : Nat → Nat → ℚ)
    (allBuses : List BusF) :
    (BusF.power_balance b t Bm allBuses
      = b.Pgen t - b.Pload t -
        (if allBuses.length = 1 then 0
         else (allBuses.map
            (fun otherBus => Bm b.index otherBus.index * otherBus.angle t)).sum)) ∧
    (allBuses.length = 1 →
      (BusF.power_balance b t Bm allBuses = 0 ↔ b.Pgen t - b.Pload t = 0)) := by
  constructor
  · unfold BusF.power_balance
    simp only [List.sum_cons, List.sum_nil]
    ring
  · intro h
    unfold BusF.power_balance
    rw [if_pos h]
    simp only [List.sum_cons, List.sum_nil]
    constructor <;> intro hh <;> linarith

/-- Claim C4, witness: a single bus with one generator producing 5 and
one load drawing 3 at every step. -/
theorem power_balance_spec_witness :
    BusF.power_balance ⟨"A", 0, true, [fun _ => 5], [fun _ => 3], fun _ => 0⟩
        "t00" (fun _ _ => 9)
        [⟨"A", 0, true, [fun _ => 5], [fun _ => 3], fun _ => 0⟩] = 0
      ↔ BusF.Pgen ⟨"A", 0, true, [fun _ => 5], [fun _ => 3], fun _ => 0⟩ "t00"
          - BusF.Pload ⟨"A", 0, true, [fun _ => 5], [fun _ => 3], fun _ => 0⟩
            "t00" = 0 :=
  (power_balance_spec ⟨"A", 0, true, [fun _ => 5], [fun _ => 3], fun _ => 0⟩
    "t00" (fun _ _ => 9)
    [⟨"A", 0, true, [fun _ => 5], [fun _ => 3], fun _ => 0⟩]).2 rfl

/-- Claim C5: a Line constructed without an explicit Pmin gets
Pmin = -Pmax; and for every line and every time step in the horizon,
create_constraints registers flow(t) == (1/X)*(angle_from(t) -
angle_to(t)) together with the box limits flow(t) <= Pmax and
Pmin <= flow(t). -/
theorem line_constraints_spec (nm F T : String) (X Pmax : ℚ)
    (pw : String → ℚ) (l : LineF) (times : List String) (buses : List BusF)
    (t : String) (ht : t ∈ times) :
    ((LineF.make nm F T X Pmax none pw).Pmin
      = -(LineF.make nm F T X Pmax none pw).Pmax) ∧
    ((⟨"line flow", t, l.power t, Rel.eq,
        (1 / l.X) * (angleOf buses l.From t - angleOf buses l.To t)⟩ :
        Constraint) ∈ l.create_constraints times buses) ∧
    ((⟨"line limit high", t, l.power t, Rel.le, l.Pmax⟩ : Constraint)
      ∈ l.create_constraints times buses) ∧
    ((⟨"line limit low", t, l.Pmin, Rel.le, l.power t⟩ : Constraint)
      ∈ l.create_constraints times buses) := by
  refine ⟨?_, ?_, ?_, ?_⟩
  · show (-1 : ℚ) * Pmax = -Pmax
    ring
  · unfold LineF.create_constraints
    rw [List.mem_flatMap]
    refine ⟨t, ht, ?_⟩
    rw [busAngle_indexOf, busAngle_indexOf]
    simp
  · unfold LineF.create_constraints
    rw [List.mem_flatMap]
    exact ⟨t, ht, by simp⟩
  · unfold LineF.create_constraints
    rw [List.mem_flatMap]
    exact ⟨t, ht, by simp⟩

/-- Claim C5, witness: a line built without Pmin on a one-step horizon. -/
theorem line_constraints_spec_witness :
    ((LineF.make "k0" "A" "B" 2 50 none (fun _ => 5)).Pmin
      = -(LineF.make "k0" "A" "B" 2 50 none (fun _ => 5)).Pmax) ∧
    ((⟨"line limit high", "t00",
        (LineF.make "k0" "A" "B" 2 50 none (fun _ => 5)).power "t00", Rel.le,
        (LineF.make "k0" "A" "B" 2 50 none (fun _ => 5)).Pmax⟩ : Constraint)
      ∈ (LineF.make "k0" "A" "B" 2 50 none (fun _ => 5)).create_constraints
          ["t00"] []) :=
  have h := line_constraints_spec "k0" "A" "B" 2 50 (fun _ => 5)
    (LineF.make "k0" "A" "B" 2 50 none (fun _ => 5)) ["t00"] [] "t00"
    (List.mem_cons_self _ _)
  ⟨h.1, h.2.2.1⟩

/-- Claim C6: Bus.create_constraints registers the swing-angle == 0
constraint at a time step exactly when that step is in the horizon, the
system has more than one bus and this bus is the swing bus; in
particular with a single bus no swing constraint is registered at any
time step. -/
theorem swing_constraint_iff (b : BusF) (times : List String)
    (Bm : Nat → Nat → ℚ) (buses : List BusF) (t : String) :
    (((⟨"swing bus", t, b.angle t, Rel.eq, 0⟩ : Constraint)
        ∈ BusF.create_constraints b times Bm buses)
      ↔ (t ∈ times ∧ 1 < buses.length ∧ b.isSwing = true)) ∧
    (buses.length = 1 →
      ∀ c ∈ BusF.create_constraints b times Bm buses, c.name ≠ "swing bus") := by
  constructor
  · constructor
    · intro hc
      rw [BusF.create_constraints, List.mem_flatMap] at hc
      obtain ⟨t2, ht2, hc⟩ := hc
      rcases List.mem_cons.mp hc with h | h
      · have hname := congrArg Constraint.name h
        dsimp only at hname
        exact absurd hname (by decide)
      · by_cases hcond : 1 < buses.length ∧ b.isSwing = true
        · rw [if_pos hcond] at h
          simp only [List.mem_singleton, Constraint.mk.injEq] at h
          obtain ⟨-, ht, -, -⟩ := h
          exact ⟨ht ▸ ht2, hcond⟩
        · rw [if_neg hcond] at h
          cases h
    · rintro ⟨ht, hlen, hsw⟩
      rw [BusF.create_constraints, List.mem_flatMap]
      refine ⟨t, ht, ?_⟩
      rw [if_pos ⟨hlen, hsw⟩]
      simp
  · intro hlen c hc
    rw [BusF.create_constraints, List.mem_flatMap] at hc
    obtain ⟨t2, ht2, hc⟩ := hc
    have hnot : ¬ (1 < buses.length ∧ b.isSwing = true) := by
      rintro ⟨h1, -⟩
      omega
    rw [if_neg hnot] at hc
    rcases List.mem_cons.mp hc with h | h
    · rw [h]
      simp
    · cases h

/-- Claim C6, witness: a two-bus system whose swing bus receives the
swing constraint at the only time step, and a one-bus system in which
no registered constraint is named swing bus. -/
theorem swing_constraint_iff_witness :
    ((⟨"swing bus", "t00",
        BusF.angle ⟨"A", 0, true, [], [], fun _ => 4⟩ "t00", Rel.eq, 0⟩ :
        Constraint)
      ∈ BusF.create_constraints ⟨"A", 0, true, [], [], fun _ => 4⟩ ["t00"]
          (fun _ _ => 0)
          [⟨"A", 0, true, [], [], fun _ => 4⟩,
           ⟨"B", 1, false, [], [], fun _ => 4⟩]) ∧
    (∀ c ∈ BusF.create_constraints ⟨"A", 0, true, [], [], fun _ => 4⟩ ["t00"]
        (fun _ _ => 0) [⟨"A", 0, true, [], [], fun _ => 4⟩],
      c.name ≠ "swing bus") :=
  ⟨(swing_constraint_iff ⟨"A", 0, true, [], [], fun _ => 4⟩ ["t00"]
      (fun _ _ => 0)
      [⟨"A", 0, true, [], [], fun _ => 4⟩, ⟨"B", 1, false, [], [], fun _ => 4⟩]
      "t00").1.mpr ⟨List.mem_cons_self _ _, by decide, rfl⟩,
    (swing_constraint_iff ⟨"A", 0, true, [], [], fun _ => 4⟩ ["t00"]
      (fun _ _ => 0) [⟨"A", 0, true, [], [], fun _ => 4⟩] "t00").2 rfl⟩

/-! ## powersystems.py: system reserve constraint -/

structure PowerSystemF where
  load_shedding_allowed : Bool
  reserve_fixed : ℚ
  reserve_load_fraction : ℚ
  loads : List (String → ℚ)
  generators : List (String → ℚ)

/-- Embedding of the local required_generation_availability of
PowerSystem.create_constraints (powersystems.py line 291). -/
def required_generation_availability (ps : PowerSystemF) (t : String) : ℚ :=
  ps.reserve_fixed + (1 + ps.reserve_load_fraction)
    * (ps.loads.map (fun ld => ld t)).sum

/-- Embedding of the local generation_availability (powersystems.py
line 292): the sum of power_available(t) over all generators. -/
def generation_availability (ps : PowerSystemF) (t : String) : ℚ :=
  (ps.generators.map (fun gen => gen t)).sum

/-- Embedding of the reserve block of PowerSystem.create_constraints
(powersystems.py lines 287-293).  The constraints delegated to buses
and lines, and the two cost-linking constraints added afterwards, are
embedded separately and none of them is named reserve.  The source
registers `generation_availability >= required_generation_availability`,
recorded here as required <= available. -/
def reserve_constraints (ps : PowerSystemF) (times : List String) :
    List Constraint :=
  if ps.load_shedding_allowed = false ∧
      (0 < ps.reserve_fixed ∨ 0 < ps.reserve_load_fraction) then
    times.map (fun time =>
      ⟨"reserve", time, required_generation_availability ps time, Rel.le,
        generation_availability ps time⟩)
  else []

/-- Claim C7: a reserve constraint is registered for a time step exactly
when load shedding is disallowed, a reserve requirement is configured
(reserve_fixed > 0 or reserve_load_fraction > 0), and the step is in the
horizon; the constraint requires total available generation across all
generators to be at least reserve_fixed + (1 + reserve_load_fraction)
times the total system load at that step. -/
theorem reserve_constraint_iff (ps : PowerSystemF) (times : List String)
    (t : String) :
    (((⟨"reserve", t, required_generation_availability ps t, Rel.le,
          generation_availability ps t⟩ : Constraint)
        ∈ reserve_constraints ps times)
      ↔ (ps.load_shedding_allowed = false ∧
          (0 < ps.reserve_fixed ∨ 0 < ps.reserve_load_fraction) ∧
          t ∈ times)) ∧
    (∀ c ∈ reserve_constraints ps times,
      c.name = "reserve" ∧ c.rel = Rel.le ∧
      c.lhs = ps.reserve_fixed + (1 + ps.reserve_load_fraction)
          * (ps.loads.map (fun ld => ld c.time)).sum ∧
      c.rhs = (ps.generators.map (fun gen => gen c.time)).sum) := by
  constructor
  · constructor
    · intro hc
      unfold reserve_constraints at hc
      by_cases hcond : ps.load_shedding_allowed = false ∧
          (0 < ps.reserve_fixed ∨ 0 < ps.reserve_load_fraction)
      · rw [if_pos hcond] at hc
        obtain ⟨t2, ht2, heq⟩ := List.mem_map.mp hc
        have ht : t2 = t := congrArg Constraint.time heq
        exact ⟨hcond.1, hcond.2, ht ▸ ht2⟩
      · rw [if_neg hcond] at hc
        cases hc
    · rintro ⟨h1, h2, ht⟩
      unfold reserve_constraints
      rw [if_pos ⟨h1, h2⟩]
      exact List.mem_map.mpr ⟨t, ht, rfl⟩
  · intro c hc
    unfold reserve_constraints at hc
    by_cases hcond : ps.load_shedding_allowed = false ∧
        (0 < ps.reserve_fixed ∨ 0 < ps.reserve_load_fraction)
    · rw [if_pos hcond] at hc
      obtain ⟨t2, -, rfl⟩ := List.mem_map.mp hc
      exact ⟨rfl, rfl, rfl, rfl⟩
    · rw [if_neg hcond] at hc
      cases hc

/-- Claim C7, witness: shedding disallowed, reserve_fixed = 10,
reserve_load_fraction = 1/10, one load of 100 and two generators with
available capacities 50 and 45. -/
theorem reserve_constraint_iff_witness :
    ((⟨"reserve", "t00",
        required_generation_availability
          ⟨false, 10, 1/10, [fun _ => 100], [fun _ => 50, fun _ => 45]⟩ "t00",
        Rel.le,
        generation_availability
          ⟨false, 10, 1/10, [fun _ => 100], [fun _ => 50, fun _ => 45]⟩
          "t00"⟩ : Constraint)
      ∈ reserve_constraints
          ⟨false, 10, 1/10, [fun _ => 100], [fun _ => 50, fun _ => 45]⟩
          ["t00"]) :=
  (reserve_constraint_iff
    ⟨false, 10, 1/10, [fun _ => 100], [fun _ => 50, fun _ => 45]⟩
    ["t00"] "t00").1.mpr
    ⟨rfl, Or.inl (by norm_num), List.mem_cons_self _ _⟩

/-! ## powersystems.py: stage handoff -/

/-- The generator final status captured by get_finalconditions
(powersystems.py lines 314-337): power level P, commitment status u and
hours in status. -/
structure FinalStatus where
  P : ℚ
  u : Bool
  hoursinstatus : ℚ
deriving DecidableEq, Repr

/-- The stage-handoff state of a generator: its pending finalstatus attribute
(none embeds both an absent attribute and the falsy empty dict) and its
applied initial condition. -/
structure GeneratorState where
  initial_condition : Option (String × FinalStatus)
  finalstatus : Option FinalStatus
deriving DecidableEq, Repr

/-- Modelled from the spec: Generator.set_initial_condition lives in
generators.py, which is not under src/; per the spec the pending final
status is applied as the initial condition of the generator for the given
initial-time marker. -/
def set_initial_condition (gen : GeneratorState) (time : String)
    (fs : FinalStatus) : GeneratorState :=
  { gen with initial_condition := some (time, fs) }

/-- Embedding of PowerSystem.set_initialconditions (powersystems.py
lines 339-347): stage 0 returns immediately; otherwise every generator
with a truthy finalstatus has it applied via
set_initial_condition(time=initTime, **finalstatus) and the attribute is
then deleted. -/
def set_initialconditions (gens : List GeneratorState) (initTime : String)
    (stage_number : Nat) : List GeneratorState :=
  if stage_number = 0 then gens
  else gens.map (fun gen =>
    match gen.finalstatus with
    | none => gen
    | some fs =>
      { set_initial_condition gen initTime fs with finalstatus := none })

/-- Claim C8: set_initialconditions with stage_number 0 changes no
generator; for stage_number > 0, every generator with a pending
finalstatus has it applied as its initial condition at the given initial
time and the finalstatus cleared afterwards, while generators without a
pending finalstatus are untouched. -/
theorem set_initialconditions_spec (gens : List GeneratorState)
    (initTime : String) (stage_number : Nat) :
    (set_initialconditions gens initTime 0 = gens) ∧
    (0 < stage_number →
      List.Forall₂ (fun gen gen2 =>
        (gen.finalstatus = none → gen2 = gen) ∧
        (∀ fs, gen.finalstatus = some fs →
          gen2.initial_condition = some (initTime, fs) ∧
          gen2.finalstatus = none))
        gens (set_initialconditions gens initTime stage_number)) := by
  constructor
  · rfl
  · intro hn
    rw [set_initialconditions, if_neg (Nat.pos_iff_ne_zero.mp hn)]
    induction gens with
    | nil => exact List.Forall₂.nil
    | cons g gs ih =>
      rw [List.map_cons]
      refine List.Forall₂.cons ⟨?_, ?_⟩ ih
      · intro h0
        simp [h0]
      · intro fs hfs
        simp [hfs, set_initial_condition]

/-- Claim C8, witness: one generator with a pending status and one
without, handed to stage 1. -/
theorem set_initialconditions_spec_witness :
    List.Forall₂ (fun gen gen2 =>
        (gen.finalstatus = none → gen2 = gen) ∧
        (∀ fs, gen.finalstatus = some fs →
          gen2.initial_condition = some ("tInit", fs) ∧
          gen2.finalstatus = none))
      [⟨none, some ⟨5, true, 3⟩⟩, ⟨some ("t-1", ⟨1, false, 0⟩), none⟩]
      (set_initialconditions
        [⟨none, some ⟨5, true, 3⟩⟩, ⟨some ("t-1", ⟨1, false, 0⟩), none⟩]
        "tInit" 1) :=
  (set_initialconditions_spec
    [⟨none, some ⟨5, true, 3⟩⟩, ⟨some ("t-1", ⟨1, false, 0⟩), none⟩]
    "tInit" 1).2 (by decide)

/-! ## scenario multiplicity guards -/

/-- The attribute getattr(gen, has_scenarios, False) read by
PowerSystem.get_generator_with_scenarios. -/
structure GeneratorScen where
  has_scenarios : Bool
deriving DecidableEq, Repr

def isError {α : Type} : Except String α → Bool
  | .error _ => true
  | .ok _ => false

/-- Embedding of PowerSystem.get_generator_with_scenarios
(powersystems.py lines 306-310): more than one scenario-bearing
generator raises NotImplementedError; zero returns the empty list
(embedded as none); one returns that generator. -/
def get_generator_with_scenarios (gens : List GeneratorScen) :
    Except String (Option GeneratorScen) :=
  let l := gens.filter (fun gen => gen.has_scenarios)
  if 1 < l.length then
    .error "Dont handle the case of multiple stochastic generators"
  else if l.length = 0 then .ok none
  else .ok l.head?

/-- The scenario-source attributes read by get_data.setup_scenarios. -/
structure GeneratorData where
  index : Nat
  scenarios_filename : Option String
  scenarios_directory : Option String
deriving DecidableEq, Repr

/-- Embedding of the decision prefix of get_data.setup_scenarios
(get_data.py lines 259-273): under a deterministic solve it returns
None at once; otherwise it collects the indices of generators carrying a
scenarios filename or directory, returns None when there are none,
raises NotImplementedError when there is more than one, and otherwise
selects the single scenario-bearing generator.  The subsequent reading
of the scenario files and construction of the scenario tree is file
I/O out of scope here. -/
def setup_scenarios_decision (deterministic_solve : Bool)
    (generators : List GeneratorData) : Except String (Option Nat) :=
  if deterministic_solve then .ok none
  else
    let has_scenarios := (generators.filter (fun gen =>
        gen.scenarios_filename.isSome
          || gen.scenarios_directory.isSome)).map (fun gen => gen.index)
    if has_scenarios.length = 0 then .ok none
    else if 1 < has_scenarios.length then
      .error "more than one generator with scenarios. have not coded this case yet."
    else .ok has_scenarios.head?

/-- Claim C9: both the scenario-bearing-generator lookup and the
scenario-setup procedure (on its non-deterministic path, the only one
on which parsedir invokes it) raise an unimplemented-feature error
exactly when more than one generator carries scenario uncertainty; with
zero or one such generator no error is raised. -/
theorem scenario_multiplicity_guard (gens : List GeneratorScen)
    (gd : List GeneratorData) :
    (isError (get_generator_with_scenarios gens) = true
      ↔ 1 < (gens.filter (fun gen => gen.has_scenarios)).length) ∧
    (isError (setup_scenarios_decision false gd) = true
      ↔ 1 < (gd.filter (fun gen => gen.scenarios_filename.isSome
            || gen.scenarios_directory.isSome)).length) := by
  constructor
  · unfold get_generator_with_scenarios
    dsimp only
    split_ifs with h1 h2 <;> simp [isError, h1]
  · unfold setup_scenarios_decision
    rw [if_neg (by decide)]
    dsimp only
    have hlen : ((gd.filter (fun gen => gen.scenarios_filename.isSome
          || gen.scenarios_directory.isSome)).map
            (fun gen => gen.index)).length
        = (gd.filter (fun gen => gen.scenarios_filename.isSome
            || gen.scenarios_directory.isSome)).length :=
      List.length_map _ _
    split_ifs with h1 h2
    · rw [hlen] at h1
      simp [isError]
      omega
    · rw [hlen] at h2
      simp [isError]
      omega
    · rw [hlen] at h1 h2
      simp [isError]
      omega

/-- Claim C9, witness: two scenario-bearing generators trip both guards;
a single one trips neither. -/
theorem scenario_multiplicity_guard_witness :
    (isError (get_generator_with_scenarios [⟨true⟩, ⟨true⟩]) = true) ∧
    (isError (setup_scenarios_decision false
        [⟨0, some "s.csv", none⟩, ⟨1, none, some "sdir"⟩]) = true) ∧
    (isError (get_generator_with_scenarios [⟨true⟩, ⟨false⟩]) = false) ∧
    (isError (setup_scenarios_decision false
        [⟨0, some "s.csv", none⟩, ⟨1, none, none⟩]) = false) :=
  ⟨(scenario_multiplicity_guard [⟨true⟩, ⟨true⟩] []).1.mpr (by decide),
    (scenario_multiplicity_guard []
      [⟨0, some "s.csv", none⟩, ⟨1, none, some "sdir"⟩]).2.mpr (by decide),
    by
      have h := (scenario_multiplicity_guard [⟨true⟩, ⟨false⟩] []).1
      revert h
      decide,
    by
      have h := (scenario_multiplicity_guard []
        [⟨0, some "s.csv", none⟩, ⟨1, none, none⟩]).2
      revert h
      decide⟩

end Minpower
